import Mathlib

/-!
Verification of the duplicate-recognition core: a shallow embedding of
src/duplicate_recognition (entity_algorithm.py, field_algorythm.py, utils.py)
together with theorems settling the frozen claims about the pair scheduler,
the comparison engine, the best-match tracker and the execution orchestrator.

Numeric scores are modelled as exact rationals; Python dicts are modelled as
association lists with distinct keys in insertion order; generators are
modelled as finite lists consumed left to right.
-/

attribute [local semireducible] Rat.mul Rat.inv Rat.add Rat.sub

namespace DupRec

/-- Field values as they occur in entities: strings, integers, or Python None.
Python `==` on mixed types is plain inequality, matching `DecidableEq`. -/
inductive Value where
  | vStr (s : String)
  | vInt (n : Int)
  | vNone
deriving DecidableEq, Repr

/-- The algorithm enum from utils.py lines 22-29.  It has exactly these six
members; field_algorythm.py line 138 additionally refers to `Algorithm.EMAIL`,
which does not exist in the enum (see the claim C6 theorem). -/
inductive Algorithm where
  | EQUALITY
  | PHONETIC_DISTANCE
  | URL
  | COUNTRY
  | VAT_ID
  | PHONE
deriving DecidableEq, Repr

/-- An entity: a Python dict field-name → value, as an assoc list in
insertion order with distinct keys. -/
abbrev Entity := List (String × Value)

/-- Dict lookup on an entity. -/
def lookupField (e : Entity) (k : String) : Option Value :=
  (e.find? (fun kv => kv.1 == k)).map (fun kv => kv.2)

/-- One row of the Levenshtein dynamic program (prev row tail, current cell
value to the left); structural recursion so the kernel can evaluate it. -/
def nrGo (x : Char) : List Char → List Nat → Nat → List Nat
  | [], _, _ => []
  | b :: bs, prev, leftVal =>
      let diag := prev.headD 0
      let above := (prev.drop 1).headD 0
      let cost := if x = b then 0 else 1
      let v := min (above + 1) (min (leftVal + 1) (diag + cost))
      v :: nrGo x bs (prev.drop 1) v

/-- Next row of the Levenshtein dynamic program. -/
def nextRow (x : Char) (bs : List Char) (prev : List Nat) : List Nat :=
  let first := prev.headD 0 + 1
  first :: nrGo x bs prev first

/-- Levenshtein edit distance (the `Levenshtein.distance` library call used by
field_algorythm.py), computed row by row. -/
def levenshtein (a b : List Char) : Nat :=
  let row0 := List.range (b.length + 1)
  (a.foldl (fun row x => nextRow x b row) row0).getLastD 0

/-- field_algorythm.py `phonetic_distance`: 1 - distance/maxLen, and 0 when
both strings are empty. -/
def phonetic_distance (a b : String) : ℚ :=
  let m := max a.length b.length
  if m = 0 then 0 else 1 - (levenshtein a.toList b.toList : ℚ) / (m : ℚ)

/-- field_algorythm.py `compare_stripped_numbers`: strip all non-digit
characters and compare for equality. -/
def compare_stripped_numbers (a b : String) : ℚ :=
  if a.toList.filter Char.isDigit = b.toList.filter Char.isDigit then 1 else 0

/-- field_algorythm.py `compare_url`: drop slashes, the www. marker and the
two schemes from both sides, then phonetic distance. -/
def compare_url (a b : String) : ℚ :=
  let clean := fun (s : String) =>
    (((s.replace ("/") ("")).replace ("www.") ("")).replace ("http:") ("")).replace ("https:") ("")
  phonetic_distance (clean a) (clean b)

/-- Whether a string contains an at sign. -/
def hasAt (s : String) : Bool := s.toList.contains '@'

/-- Local part of an email: everything before the first at sign
(Python `split` with the at separator, first component). -/
def localPart (s : String) : List Char := s.toList.takeWhile (fun c => c ≠ '@')

/-- Domain part of an email: everything after the first at sign
(Python `split` with the at separator, second component). -/
def domainPart (s : String) : List Char := (s.toList.dropWhile (fun c => c ≠ '@')).drop 1

/-- Strip a trailing plus-suffix: everything before the last plus sign when
one exists (Python `rsplit` on the plus sign, first component). -/
def stripPlus (l : List Char) : List Char :=
  if l.contains '+' then ((l.reverse.dropWhile (fun c => c ≠ '+')).drop 1).reverse else l

/-- field_algorythm.py `compare_email` lines 111-124. -/
def compare_email (a b : String) : ℚ :=
  if !(hasAt a && hasAt b) then phonetic_distance a b
  else if domainPart a ≠ domainPart b then 0
  else if stripPlus (localPart a) = stripPlus (localPart b) then 1 else 0

/-- Apply a string similarity to two values.  Python would raise a TypeError
when either side is not a string; no registered string algorithm is ever
dispatched on non-strings by the engine, and we return 0 there. -/
def strAlg (f : String → String → ℚ) : Value → Value → ℚ
  | Value.vStr x, Value.vStr y => f x y
  | _, _ => 0

/-- field_algorythm.py `compare_fields` / `FIELD_ALGORITHMS` dispatch over the
six members of the enum.  The country algorithm resolves each side through the
external pycountry fuzzy lookup, abstracted as the `resolve` parameter, then
compares canonical names for equality. -/
def compare_fields (resolve : String → String) (a b : Value) : Algorithm → ℚ
  | Algorithm.EQUALITY => if a = b then 1 else 0
  | Algorithm.PHONETIC_DISTANCE => strAlg phonetic_distance a b
  | Algorithm.URL => strAlg compare_url a b
  | Algorithm.COUNTRY => strAlg (fun x y => if resolve x = resolve y then 1 else 0) a b
  | Algorithm.VAT_ID => strAlg compare_stripped_numbers a b
  | Algorithm.PHONE => strAlg compare_stripped_numbers a b

/-- The immutable part of the class-level configuration of
`DuplicateRecognition` (ID_COLUMN, MATCHING_ALGORITHM, THRESHOLDS,
NEGATIVE_FIELDS).  The weight table F_SCORES is kept separate because
`execute` mutates it. -/
structure Config where
  idColumn : String
  matchingAlgorithm : String → Algorithm
  thresholds : String → ℚ
  negativeFields : List String

/-- The Comparison record of entity_algorithm.py lines 36-54 (the score
bookkeeping fields; the back-reference to the parent object is replaced by
passing the configuration explicitly). -/
@[ext]
structure Comparison where
  entity : Entity
  otherEntity : Entity
  fieldScores : List (String × ℚ)
  fScoreSum : ℚ
  count : Nat
  score : ℚ
deriving DecidableEq, Repr

instance : Inhabited Comparison := ⟨⟨[], [], [], 0, 0, 0⟩⟩

/-- `int(entity[ID_COLUMN])` for the entities handled by the engine, whose id
value is an integer.  (Python casts strings and raises on a missing key; both
cases are outside every run considered here and default to 0.) -/
def entityId (cfg : Config) (e : Entity) : Int :=
  match lookupField e cfg.idColumn with
  | some (Value.vInt n) => n
  | _ => 0

/-- `Comparison.pair`: the two entity ids of a comparison. -/
def pairOf (cfg : Config) (c : Comparison) : Int × Int :=
  (entityId cfg c.entity, entityId cfg c.otherEntity)

/-- Whether a comparison involves the given entity id on either side. -/
def involvesB (cfg : Config) (c : Comparison) (i : Int) : Bool :=
  (pairOf cfg c).1 == i || (pairOf cfg c).2 == i

/-- The best-match registry: Python dict id → Comparison in insertion order. -/
abbrev BM := List (Int × Comparison)

/-- Dict lookup in the best-match registry. -/
def lookupBM (bm : BM) (i : Int) : Option Comparison :=
  (bm.find? (fun p => p.1 == i)).map (fun p => p.2)

/-- `BestMatchDict.__missing__`: an absent entry behaves as a sentinel
comparison with empty entities and score 0; this is its score. -/
def bmScore (bm : BM) (i : Int) : ℚ :=
  match lookupBM bm i with
  | some c => c.score
  | none => 0

/-- Python dict assignment: replace the value in place when the key exists,
otherwise append the new binding at the end. -/
def setBM : BM → Int → Comparison → BM
  | [], i, c => [(i, c)]
  | p :: rest, i, c => if p.1 = i then (i, c) :: rest else p :: setBM rest i c

/-- `Comparison._check_for_best` (entity_algorithm.py lines 87-98): replace
the stored best for `i` whenever its score is less than or equal to the new
comparison's score. -/
def checkForBest (bm : BM) (c : Comparison) (i : Int) : BM :=
  if bmScore bm i ≤ c.score then setBM bm i c else bm

/-- `Comparison.commit`: check both sides of the pair, first component
first. -/
def commit (cfg : Config) (bm : BM) (c : Comparison) : BM :=
  checkForBest (checkForBest bm c (pairOf cfg c).1) c (pairOf cfg c).2

/-- The per-field score of the engine inner loop (entity_algorithm.py lines
312-317): raw comparator similarity, then the threshold clamp, then the
negative-field inversion. -/
def fieldScore (resolve : String → String) (cfg : Config) (k : String) (a b : Value) : ℚ :=
  let t := compare_fields resolve a b (cfg.matchingAlgorithm k)
  let t := if t < cfg.thresholds k then 0 else t
  if k ∈ cfg.negativeFields then 1 - t else t

/-- One iteration of the engine inner loop over a key of the left entity:
skip the field unless the right entity also has it, otherwise record the field
score and accumulate the weight sum, the weighted score and the count. -/
def compareStep (resolve : String → String) (cfg : Config) (fS : String → ℚ)
    (o : Entity) (c : Comparison) (kv : String × Value) : Comparison :=
  match lookupField o kv.1 with
  | none => c
  | some b =>
      let t := fieldScore resolve cfg kv.1 kv.2 b
      let f := fS kv.1
      { c with
        fieldScores := c.fieldScores ++ [(kv.1, t)],
        fScoreSum := c.fScoreSum + f,
        score := c.score + t * f,
        count := c.count + 1 }

/-- `DuplicateRecognition._compare` for a single candidate (entity_algorithm.py
lines 302-328): fold the inner loop over the left entity's fields, then divide
the accumulated score by the count of compared fields (0 when none). -/
def compareOne (resolve : String → String) (cfg : Config) (fS : String → ℚ)
    (e o : Entity) : Comparison :=
  let c := e.foldl (compareStep resolve cfg fS o) ⟨e, o, [], 0, 0, 0⟩
  { c with score := if c.count > 0 then c.score / (c.count : ℚ) else 0 }

/-- The fields of the left entity that are present in both entities
(the sparse intersection walked by the engine). -/
def sharedOf (e o : Entity) : Entity :=
  e.filter (fun kv => (lookupField o kv.1).isSome)

/-- The right entity's value for a shared field. -/
def valueOf (o : Entity) (k : String) : Value :=
  (lookupField o k).getD Value.vNone

/-- Add an id to the refresh batch under construction (`existing.add(b)` on a
Python set, kept in insertion order). -/
def insertSet (l : List Int) (b : Int) : List Int :=
  if b ∈ l then l else l ++ [b]

/-- The Phase A loop of `_generate_comparisons` (entity_algorithm.py lines
253-261).  State carried: `_prev_a`, the loop variable `a` after the last
iteration, the batch under construction and the batches emitted so far.  After
the loop the source flushes the pending batch only when `a != _prev_a`, which
is translated verbatim (the two are always equal, so the last batch is
dropped). -/
def phaseAGo (prevA aCur : Int) (existing : List Int)
    (acc : List (Int × List Int)) : List (Int × Int) → List (Int × List Int)
  | [] => if aCur ≠ prevA then acc ++ [(prevA, existing)] else acc
  | (a, b) :: rest =>
      let flush := a ≠ prevA
      let acc1 := if flush then acc ++ [(prevA, existing)] else acc
      let ex1 := if flush then [] else existing
      phaseAGo a a (insertSet ex1 b) acc1 rest

/-- Phase A of the scheduler: group the refresh pair stream by its first
component.  An empty stream only logs. -/
def phaseA : List (Int × Int) → List (Int × List Int)
  | [] => []
  | (a0, b0) :: rest => phaseAGo a0 a0 [b0] [] rest

/-- The Phase B loop of `_generate_comparisons` (entity_algorithm.py lines
279-285): for each uncompared id not already in the pool, emit it against the
current pool and then add it to the pool. -/
def phaseBGo : List Int → List Int → List (Int × List Int)
  | [], _ => []
  | a :: rest, existing =>
      if a ∈ existing then phaseBGo rest existing
      else (a, existing) :: phaseBGo rest (existing ++ [a])

/-- Phase B of the scheduler (entity_algorithm.py lines 266-285): pool =
compared ids; when that is empty the first uncompared id is consumed as the
seed, and when both streams are empty nothing is emitted. -/
def phaseB (compared uncompared : List Int) : List (Int × List Int) :=
  if compared.isEmpty then
    match uncompared with
    | [] => []
    | u0 :: rest => phaseBGo rest [u0]
  else phaseBGo uncompared compared

/-- `DuplicateRecognition._generate_comparisons`: the refresh batches followed
by the incremental batches. -/
def generateComparisons (refresh : List (Int × Int)) (compared uncompared : List Int) :
    List (Int × List Int) :=
  phaseA refresh ++ phaseB compared uncompared

/-- `_clean_value`: strings are trimmed and lower-cased, other values pass
through. -/
def cleanValue : Value → Value
  | Value.vStr s => Value.vStr (s.trim.map Char.toLower)
  | v => v

/-- `_process_entity` (entity_algorithm.py lines 205-219): drop fields whose
configured weight is not positive (except the id), clean the remaining values
and drop those that clean to nothing. -/
def processEntity (cfg : Config) (fS : String → ℚ) (e : Entity) : Entity :=
  e.filterMap (fun kv =>
    if fS kv.1 ≤ 0 ∧ kv.1 ≠ cfg.idColumn then none
    else
      let v := cleanValue kv.2
      if v = Value.vNone ∨ v = Value.vStr ("") then none
      else some (kv.1, v))

/-- `_map_relevant_entities`: key each raw entity by its (raw) id value and
normalize it.  Because the backing EntityDict is lazy, every entity is
normalized after `execute` has negated the weights of the negative fields, so
the weight table passed here is the mutated one. -/
def mapRelevantEntities (cfg : Config) (fS : String → ℚ) (raw : List Entity) :
    List (Int × Entity) :=
  raw.map (fun e => (entityId cfg e, processEntity cfg fS e))

/-- Dict assignment on the entity table (replace in place or append). -/
def setEntry : List (Int × Entity) → Int → Entity → List (Int × Entity)
  | [], i, e => [(i, e)]
  | p :: rest, i, e => if p.1 = i then (i, e) :: rest else p :: setEntry rest i e

/-- Dict lookup on the entity table. -/
def lookupEntry (t : List (Int × Entity)) (key : Int) : Option Entity :=
  (t.find? (fun p => p.1 == key)).map (fun p => p.2)

/-- The state of the lazy EntityDict: the table filled so far and the not yet
consumed tail of the normalized entity stream. -/
abbrev EDState := List (Int × Entity) × List (Int × Entity)

/-- The miss path of `EntityDict.__missing__` (entity_algorithm.py lines
24-33): drain the stream into the table until the key shows up; when the
stream ends without it, log and return the degenerate stand-in entity that
holds only the id field. -/
def edDrain (cfg : Config) (table : List (Int × Entity)) :
    List (Int × Entity) → Int → Entity × EDState
  | [], key => ([(cfg.idColumn, Value.vInt key)], (table, []))
  | (i, e) :: rest, key =>
      if i = key then (e, (setEntry table i e, rest))
      else edDrain cfg (setEntry table i e) rest key

/-- EntityDict lookup: hit the table, or fall into `__missing__`. -/
def edLookup (cfg : Config) (st : EDState) (key : Int) : Entity × EDState :=
  match lookupEntry st.1 key with
  | some e => (e, st)
  | none => edDrain cfg st.1 st.2 key

/-- Sequential EntityDict lookups for a candidate id list. -/
def edLookupMany (cfg : Config) (st : EDState) : List Int → List Entity × EDState
  | [] => ([], st)
  | k :: rest =>
      let (e, st1) := edLookup cfg st k
      let (es, st2) := edLookupMany cfg st1 rest
      (e :: es, st2)

/-- `_get_best_comparison_pairs`: for every tracked id, the other side of its
best comparison's pair, with the comparison. -/
def bestPairs (cfg : Config) (bm : BM) : List (Int × Int × Comparison) :=
  bm.map (fun p =>
    let pr := pairOf cfg p.2
    (p.1, if pr.1 = p.1 then pr.2 else pr.1, p.2))

/-- The main loop of `execute` (entity_algorithm.py lines 366-370): for each
scheduler batch, look up the entity and its candidate pool, score the pool,
commit every produced comparison, then decrement the limit and stop when it
has dropped below one.  Returns the per-batch comparison lists, the final
best-match registry and the final EntityDict state. -/
def runBatches (resolve : String → String) (cfg : Config) (fS : String → ℚ) :
    Option Int → List (Int × List Int) → EDState → BM →
    List (List Comparison) × BM × EDState
  | _, [], ed, bm => ([], bm, ed)
  | lim, (a, ex) :: rest, ed, bm =>
      let (ea, ed1) := edLookup cfg ed a
      let (pool, ed2) := edLookupMany cfg ed1 ex
      let comps := pool.map (compareOne resolve cfg fS ea)
      let bm1 := comps.foldl (commit cfg) bm
      match lim with
      | none =>
          let (bcs, bmF, edF) := runBatches resolve cfg fS none rest ed2 bm1
          (comps :: bcs, bmF, edF)
      | some l =>
          if l - 1 < 1 then ([comps], bm1, ed2)
          else
            let (bcs, bmF, edF) := runBatches resolve cfg fS (some (l - 1)) rest ed2 bm1
            (comps :: bcs, bmF, edF)

/-- The value negating the weight of every negative field, applied by
`execute` once per run to the shared class-level weight table
(entity_algorithm.py lines 363-364). -/
def negateFields (neg : List String) (fS : String → ℚ) : String → ℚ :=
  fun k => if k ∈ neg then -(fS k) else fS k

/-- The observable outcome of one `execute` run: all comparisons grouped per
scheduler batch (what `write_comparisons` receives), the best-match triples
(what `write_best_comparisons` receives), and the weight table as `execute`
leaves it (the class-level state a later run would start from). -/
structure RunResult where
  batchComparisons : List (List Comparison)
  bests : List (Int × Int × Comparison)
  fScores : String → ℚ

/-- `DuplicateRecognition.execute` (entity_algorithm.py lines 349-372): re-init
the best-match registry, commit any persisted bests, negate the weights of the
negative fields, build the lazy normalized entity table, drive the scheduler
through the engine under the optional batch limit, and emit the best pairs. -/
def execute (resolve : String → String) (cfg : Config) (fS : String → ℚ)
    (existingBests : List Comparison) (rawEntities : List Entity)
    (refresh : List (Int × Int)) (compared uncompared : List Int)
    (limit : Option Int) : RunResult :=
  let bm0 := existingBests.foldl (commit cfg) ([] : BM)
  let fS1 := negateFields cfg.negativeFields fS
  let ed0 : EDState := ([], mapRelevantEntities cfg fS1 rawEntities)
  let batches := generateComparisons refresh compared uncompared
  let r := runBatches resolve cfg fS1 limit batches ed0 bm0
  ⟨r.1, bestPairs cfg r.2.1, fS1⟩

/-- The Phase B contract in the spec's words: the pool starts as the compared
ids; for each uncompared id in order, emit it against the current pool and
then add it to the pool.  Modelled from the spec for comparison with the
source's `phaseB`. -/
def specSchedule : List Int → List Int → List (Int × List Int)
  | _, [] => []
  | pool, a :: rest => (a, pool) :: specSchedule (pool ++ [a]) rest

/-- The per-field entry the engine records for a shared field. -/
def fieldEntry (resolve : String → String) (cfg : Config) (o : Entity)
    (kv : String × Value) : String × ℚ :=
  (kv.1, fieldScore resolve cfg kv.1 kv.2 (valueOf o kv.1))

/-- The sum of weighted per-field scores over the shared fields. -/
def weightedScoreSum (resolve : String → String) (cfg : Config) (fS : String → ℚ)
    (e o : Entity) : ℚ :=
  ((sharedOf e o).map (fun kv => (fieldEntry resolve cfg o kv).2 * fS kv.1)).sum

/-- Characterization of the engine inner loop: folding `compareStep` over a
field list extends the accumulator by exactly the shared-field entries,
weights, weighted scores and count. -/
theorem foldl_compareStep (resolve : String → String) (cfg : Config)
    (fS : String → ℚ) (o : Entity) (l : List (String × Value)) (c : Comparison) :
    l.foldl (compareStep resolve cfg fS o) c =
      { c with
        fieldScores := c.fieldScores ++ (sharedOf l o).map (fieldEntry resolve cfg o),
        fScoreSum := c.fScoreSum + ((sharedOf l o).map (fun kv => fS kv.1)).sum,
        score := c.score + ((sharedOf l o).map (fun kv => (fieldEntry resolve cfg o kv).2 * fS kv.1)).sum,
        count := c.count + (sharedOf l o).length } := by
  induction l generalizing c with
  | nil => simp [sharedOf]
  | cons kv t ih =>
      cases hl : lookupField o kv.1 with
      | none =>
          have hshared : sharedOf (kv :: t) o = sharedOf t o := by
            simp [sharedOf, hl]
          simp only [List.foldl_cons, compareStep, hl, hshared]
          exact ih c
      | some b =>
          have hshared : sharedOf (kv :: t) o = kv :: sharedOf t o := by
            simp [sharedOf, hl]
          have hval : valueOf o kv.1 = b := by simp [valueOf, hl]
          simp only [List.foldl_cons, compareStep, hl, hshared, List.map_cons]
          rw [ih]
          ext <;> simp [fieldEntry, hval] <;> ring

/-- The comparison the engine emits for one candidate, in closed form. -/
theorem compareOne_eq (resolve : String → String) (cfg : Config) (fS : String → ℚ)
    (e o : Entity) :
    compareOne resolve cfg fS e o =
      { entity := e,
        otherEntity := o,
        fieldScores := (sharedOf e o).map (fieldEntry resolve cfg o),
        fScoreSum := ((sharedOf e o).map (fun kv => fS kv.1)).sum,
        count := (sharedOf e o).length,
        score := if 0 < (sharedOf e o).length
          then weightedScoreSum resolve cfg fS e o / ((sharedOf e o).length : ℚ)
          else 0 } := by
  unfold compareOne
  rw [foldl_compareStep]
  ext <;> simp [weightedScoreSum]

theorem compareOne_count (resolve : String → String) (cfg : Config) (fS : String → ℚ)
    (e o : Entity) :
    (compareOne resolve cfg fS e o).count = (sharedOf e o).length := by
  rw [compareOne_eq]

theorem compareOne_score (resolve : String → String) (cfg : Config) (fS : String → ℚ)
    (e o : Entity) :
    (compareOne resolve cfg fS e o).score =
      if 0 < (sharedOf e o).length
        then weightedScoreSum resolve cfg fS e o / ((sharedOf e o).length : ℚ)
        else 0 := by
  rw [compareOne_eq]

theorem compareOne_fieldScores (resolve : String → String) (cfg : Config)
    (fS : String → ℚ) (e o : Entity) :
    (compareOne resolve cfg fS e o).fieldScores =
      (sharedOf e o).map (fieldEntry resolve cfg o) := by
  rw [compareOne_eq]

/-- C3 — Aggregate normalization: for every pair of entities the Comparison
Engine scores, the emitted comparison's field count is the number of fields
present in both entities, its aggregate score is the sum of weighted per-field
scores divided by that count (not by the weight sum) whenever the count is
positive, and two entities sharing no fields get aggregate score 0 with field
count 0. -/
theorem C3_aggregate_normalization (resolve : String → String) (cfg : Config)
    (fS : String → ℚ) (e o : Entity) :
    (compareOne resolve cfg fS e o).count = (sharedOf e o).length
    ∧ (compareOne resolve cfg fS e o).score =
        (if 0 < (sharedOf e o).length
          then weightedScoreSum resolve cfg fS e o / ((sharedOf e o).length : ℚ)
          else 0)
    ∧ (sharedOf e o = [] →
        (compareOne resolve cfg fS e o).score = 0
        ∧ (compareOne resolve cfg fS e o).count = 0) := by
  refine ⟨compareOne_count resolve cfg fS e o, compareOne_score resolve cfg fS e o, ?_⟩
  intro h
  rw [compareOne_score, compareOne_count, h]
  simp

/-- Witness for C3 at a concrete disjoint pair of entities. -/
theorem C3_aggregate_normalization_witness :
    sharedOf [(("a"), Value.vInt 1)] [(("b"), Value.vInt 2)] = []
    ∧ (compareOne id ⟨("id"), fun _ => Algorithm.EQUALITY, fun _ => 0, []⟩
        (fun _ => 1) [(("a"), Value.vInt 1)] [(("b"), Value.vInt 2)]).score = 0
    ∧ (compareOne id ⟨("id"), fun _ => Algorithm.EQUALITY, fun _ => 0, []⟩
        (fun _ => 1) [(("a"), Value.vInt 1)] [(("b"), Value.vInt 2)]).count = 0 := by
  have h := (C3_aggregate_normalization id
    ⟨("id"), fun _ => Algorithm.EQUALITY, fun _ => 0, []⟩
    (fun _ => 1) [(("a"), Value.vInt 1)] [(("b"), Value.vInt 2)]).2.2 (by decide)
  exact ⟨by decide, h.1, h.2⟩

/-- C8 — Per-field score pipeline order: for every shared field the engine
records the comparator's raw similarity clamped to 0 when below the field's
threshold and only then inverted (1 minus) when the field is in the
inverted-field set; consequently a raw similarity of 1 on an inverted field
whose threshold is at most 1 contributes 0, and a raw similarity of 3/5 under
threshold 4/5 contributes 0. -/
theorem C8_field_pipeline (resolve : String → String) (cfg : Config)
    (fS : String → ℚ) (e o : Entity) :
    (compareOne resolve cfg fS e o).fieldScores =
      (sharedOf e o).map (fun kv =>
        (kv.1,
          let raw := compare_fields resolve kv.2 (valueOf o kv.1) (cfg.matchingAlgorithm kv.1)
          let clamped := if raw < cfg.thresholds kv.1 then 0 else raw
          if kv.1 ∈ cfg.negativeFields then 1 - clamped else clamped))
    ∧ (∀ (k : String) (a b : Value), cfg.thresholds k ≤ 1 → k ∈ cfg.negativeFields →
        compare_fields resolve a b (cfg.matchingAlgorithm k) = 1 →
        fieldScore resolve cfg k a b = 0)
    ∧ (∀ (k : String) (a b : Value), cfg.thresholds k = 4/5 → k ∉ cfg.negativeFields →
        compare_fields resolve a b (cfg.matchingAlgorithm k) = 3/5 →
        fieldScore resolve cfg k a b = 0) := by
  refine ⟨?_, ?_, ?_⟩
  · rw [compareOne_fieldScores]
    rfl
  · intro k a b hthr hneg hraw
    have h1 : ¬ (1 : ℚ) < cfg.thresholds k := not_lt.mpr hthr
    simp [fieldScore, hraw, h1, hneg]
  · intro k a b hthr hneg hraw
    have hlt : compare_fields resolve a b (cfg.matchingAlgorithm k) < cfg.thresholds k := by
      rw [hraw, hthr]; norm_num
    simp [fieldScore, hlt, hneg]

/-- Witness for C8: an exact match on an inverted field scores 0, and a
similarity of 3/5 under threshold 4/5 scores 0. -/
theorem C8_field_pipeline_witness :
    fieldScore id ⟨("id"), fun _ => Algorithm.EQUALITY, fun _ => 0, [("n")]⟩
      ("n") (Value.vInt 1) (Value.vInt 1) = 0
    ∧ fieldScore id ⟨("id"), fun _ => Algorithm.PHONETIC_DISTANCE, fun _ => 4/5, []⟩
      ("k") (Value.vStr ("abcde")) (Value.vStr ("abcxy")) = 0 := by
  constructor
  · exact (C8_field_pipeline id ⟨("id"), fun _ => Algorithm.EQUALITY, fun _ => 0, [("n")]⟩
      (fun _ => 1) [] []).2.1 ("n") (Value.vInt 1) (Value.vInt 1)
      (by norm_num) (by decide) (by decide)
  · exact (C8_field_pipeline id ⟨("id"), fun _ => Algorithm.PHONETIC_DISTANCE, fun _ => 4/5, []⟩
      (fun _ => 1) [] []).2.2 ("k") (Value.vStr ("abcde")) (Value.vStr ("abcxy"))
      rfl (by decide) (by decide)

/-- C1 — Phase A refresh grouping: on the spec's own concrete stream
[(1,2),(1,3),(2,5)] the scheduler emits only the batch (1,(2,3)).  The final
flush in the source (entity_algorithm.py lines 260-261) is guarded by
`a != _prev_a`, which never holds after the loop, so the last group (2,(5,))
claimed by the spec is never emitted. -/
theorem C1_refresh_last_batch_dropped :
    generateComparisons [(1, 2), (1, 3), (2, 5)] [] [] = [(1, [2, 3])]
    ∧ generateComparisons [(1, 2), (1, 3), (2, 5)] [] [] ≠ [(1, [2, 3]), (2, [5])] :=
  ⟨rfl, by decide⟩

/-- Every batch Phase B emits is keyed by one of the loop's input ids. -/
theorem phaseBGo_fst_mem (us : List Int) :
    ∀ (existing : List Int) (p : Int × List Int), p ∈ phaseBGo us existing → p.1 ∈ us := by
  induction us with
  | nil => intro ex p hp; simp [phaseBGo] at hp
  | cons a rest ih =>
      intro ex p hp
      by_cases ha : a ∈ ex
      · simp only [phaseBGo, if_pos ha] at hp
        exact List.mem_cons_of_mem a (ih ex p hp)
      · simp only [phaseBGo, if_neg ha, List.mem_cons] at hp
        rcases hp with h | h
        · simp [h]
        · exact List.mem_cons_of_mem a (ih (ex ++ [a]) p h)

/-- The Phase B loop agrees with the spec-side schedule whenever the incoming
ids are distinct and disjoint from the pool. -/
theorem phaseBGo_spec (us : List Int) :
    ∀ existing : List Int, us.Nodup → (∀ a ∈ us, a ∉ existing) →
    phaseBGo us existing = specSchedule existing us := by
  induction us with
  | nil => intro ex _ _; rfl
  | cons a rest ih =>
      intro ex hnd hdisj
      have ha : a ∉ ex := hdisj a (List.mem_cons_self a rest)
      simp only [phaseBGo, if_neg ha, specSchedule]
      congr 1
      refine ih (ex ++ [a]) (List.Nodup.of_cons hnd) ?_
      intro b hb
      simp only [List.mem_append, List.mem_singleton]
      rintro (hbex | hba)
      · exact hdisj b (List.mem_cons_of_mem a hb) hbex
      · exact (List.nodup_cons.mp hnd).1 (hba ▸ hb)

/-- C4 (amended) — Phase B incremental scheduling: when the compared stream is
non-empty and no uncompared id repeats or already occurs among the compared
ids, the scheduler emits, for each uncompared id in order, one batch pairing
it against the current pool (which starts as the compared ids), adding the id
to the pool before the next one is processed. -/
theorem C4_phaseB_incremental (compared uncompared : List Int)
    (hne : compared ≠ []) (hnd : uncompared.Nodup)
    (hdisj : ∀ a ∈ uncompared, a ∉ compared) :
    phaseB compared uncompared = specSchedule compared uncompared := by
  cases compared with
  | nil => exact absurd rfl hne
  | cons c cs =>
      simp only [phaseB, List.isEmpty_cons, Bool.false_eq_true, if_false]
      exact phaseBGo_spec uncompared (c :: cs) hnd hdisj

/-- Counterexample to C4 as stated: with an empty compared stream the code
consumes the first uncompared id as the pool seed and never emits a batch for
it, so the claimed batches (3,()) and (4,(3)) are not produced. -/
theorem C4_phaseB_empty_compared_cex :
    phaseB ([] : List Int) [3, 4] = [(4, [3])]
    ∧ specSchedule ([] : List Int) [3, 4] = [(3, []), (4, [3])]
    ∧ phaseB ([] : List Int) [3, 4] ≠ specSchedule ([] : List Int) [3, 4] :=
  ⟨rfl, rfl, by decide⟩

/-- Witness for C4 at the spec's concrete scenario compared=[1,2],
uncompared=[3,4]. -/
theorem C4_phaseB_incremental_witness :
    phaseB [1, 2] [3, 4] = specSchedule [1, 2] [3, 4]
    ∧ specSchedule [1, 2] [3, 4] = [(3, [1, 2]), (4, [1, 2, 3])] :=
  ⟨C4_phaseB_incremental [1, 2] [3, 4] (by decide) (by decide) (by decide), by decide⟩

/-- C10 — empty-compared seeding: with both streams empty Phase B emits
nothing; with an empty compared stream the first uncompared id seeds the pool
and is never the entity of an emitted batch, and the first emitted batch pairs
the second uncompared id against the pool holding exactly the first. -/
theorem C10_empty_compared_seeding :
    phaseB ([] : List Int) [] = []
    ∧ (∀ (u0 : Int) (rest : List Int), u0 ∉ rest →
        ∀ p ∈ phaseB [] (u0 :: rest), p.1 ≠ u0)
    ∧ (∀ (u0 u1 : Int) (rest : List Int), u1 ≠ u0 →
        (phaseB [] (u0 :: u1 :: rest)).head? = some (u1, [u0])) := by
  refine ⟨rfl, ?_, ?_⟩
  · intro u0 rest hu0 p hp
    have hmem : p.1 ∈ rest := by
      have hp2 : p ∈ phaseBGo rest [u0] := by
        simpa [phaseB] using hp
      exact phaseBGo_fst_mem rest [u0] p hp2
    intro he
    exact hu0 (he ▸ hmem)
  · intro u0 u1 rest h
    simp [phaseB, phaseBGo, h]

/-- Witness for C10: with compared empty and uncompared [3,4], the only batch
pairs 4 against the pool (3), and the seed 3 is not the entity of any
batch. -/
theorem C10_empty_compared_seeding_witness :
    (phaseB ([] : List Int) [3, 4]).head? = some (4, [3])
    ∧ ∀ p ∈ phaseB ([] : List Int) [3, 4], p.1 ≠ 3 :=
  ⟨C10_empty_compared_seeding.2.2 3 4 [] (by decide),
   C10_empty_compared_seeding.2.1 3 [4] (by decide)⟩

/-- Dict assignment only touches the assigned key. -/
theorem lookupBM_setBM (bm : BM) (i : Int) (c : Comparison) (j : Int) :
    lookupBM (setBM bm i c) j = if j = i then some c else lookupBM bm j := by
  induction bm with
  | nil =>
      by_cases h : j = i
      · subst h; simp [setBM, lookupBM, List.find?]
      · have hij : (i == j) = false := by
          simp only [beq_eq_false_iff_ne, ne_eq]
          exact fun he => h he.symm
        simp [setBM, lookupBM, List.find?, h, hij]
  | cons p rest ih =>
      by_cases hpi : p.1 = i
      · by_cases hji : j = i
        · subst hji; simp [setBM, hpi, lookupBM, List.find?]
        · have hij : (i == j) = false := by
            simp only [beq_eq_false_iff_ne, ne_eq]
            exact fun he => hji he.symm
          have hpj : (p.1 == j) = false := by
            simp only [beq_eq_false_iff_ne, ne_eq]
            intro he
            exact hji (by rw [← he, hpi])
          simp [setBM, hpi, lookupBM, List.find?, hij, hpj, hji]
      · simp only [setBM, if_neg hpi, lookupBM, List.find?]
        by_cases hpj : (p.1 == j) = true
        · have hji : ¬ j = i := fun h => hpi ((eq_of_beq hpj).trans h)
          simp [hpj, hji]
        · have hpj2 : (p.1 == j) = false := by
            cases hb : (p.1 == j)
            · rfl
            · exact absurd hb hpj
          simp only [hpj2]
          exact ih

/-- The stored score after a dict assignment. -/
theorem bmScore_setBM (bm : BM) (i : Int) (c : Comparison) (j : Int) :
    bmScore (setBM bm i c) j = if j = i then c.score else bmScore bm j := by
  unfold bmScore
  rw [lookupBM_setBM]
  by_cases h : j = i <;> simp [h]

/-- `_check_for_best` leaves every other id alone and raises the stored score
for the checked id to the maximum of the old score and the new one. -/
theorem bmScore_checkForBest (bm : BM) (c : Comparison) (i j : Int) :
    bmScore (checkForBest bm c i) j =
      if j = i then max (bmScore bm j) c.score else bmScore bm j := by
  unfold checkForBest
  by_cases hle : bmScore bm i ≤ c.score
  · rw [if_pos hle, bmScore_setBM]
    by_cases hji : j = i
    · rw [if_pos hji, if_pos hji, hji, max_eq_right hle]
    · rw [if_neg hji, if_neg hji]
  · rw [if_neg hle]
    by_cases hji : j = i
    · rw [if_pos hji, hji, max_eq_left (le_of_lt (not_le.mp hle))]
    · rw [if_neg hji]

/-- `commit` raises the stored scores of exactly the two ids of the pair to
the maximum of their old scores and the comparison's score. -/
theorem bmScore_commit (cfg : Config) (bm : BM) (c : Comparison) (j : Int) :
    bmScore (commit cfg bm c) j =
      if involvesB cfg c j then max (bmScore bm j) c.score else bmScore bm j := by
  unfold commit involvesB
  rw [bmScore_checkForBest, bmScore_checkForBest]
  by_cases h2 : j = (pairOf cfg c).2 <;> by_cases h1 : j = (pairOf cfg c).1
  · simp [h1, h2, ← max_assoc]
  · simp [if_pos h2, if_neg h1, ← h2]
  · simp [if_neg h2, if_pos h1, ← h1]
  · have hb : ((pairOf cfg c).1 == j || (pairOf cfg c).2 == j) = false := by
      simp [Ne.symm h1, Ne.symm h2]
    simp [if_neg h2, if_neg h1, hb]

/-- Folding `commit` over a comparison list: the stored score of an id is the
running maximum, from its previous score, over the comparisons involving
it. -/
theorem bmScore_foldl_commit (cfg : Config) (L : List Comparison) :
    ∀ (bm : BM) (j : Int),
    bmScore (L.foldl (commit cfg) bm) j =
      (L.filter (fun c => involvesB cfg c j)).foldl (fun m c => max m c.score) (bmScore bm j) := by
  induction L with
  | nil => intro bm j; rfl
  | cons c t ih =>
      intro bm j
      simp only [List.foldl_cons]
      rw [ih]
      by_cases h : involvesB cfg c j
      · simp only [List.filter_cons, h, if_true, List.foldl_cons]
        rw [bmScore_commit, if_pos h]
      · have hf : involvesB cfg c j = false := by
          cases hb : involvesB cfg c j
          · rfl
          · exact absurd hb h
        simp only [List.filter_cons, hf, Bool.false_eq_true, if_false]
        rw [bmScore_commit, if_neg h]

/-- An entry produced by `_check_for_best` is the new comparison at the
checked id, or was already there. -/
theorem lookupBM_checkForBest_some (bm : BM) (c : Comparison) (i j : Int)
    (c' : Comparison) :
    lookupBM (checkForBest bm c i) j = some c' →
    (c' = c ∧ j = i) ∨ lookupBM bm j = some c' := by
  unfold checkForBest
  by_cases hle : bmScore bm i ≤ c.score
  · rw [if_pos hle, lookupBM_setBM]
    by_cases hji : j = i
    · rw [if_pos hji]
      intro h
      exact Or.inl ⟨(Option.some_inj.mp h).symm, hji⟩
    · rw [if_neg hji]
      exact fun h => Or.inr h
  · rw [if_neg hle]
    exact fun h => Or.inr h

/-- An entry produced by `commit` is the committed comparison (which then
involves that id), or was already there. -/
theorem lookupBM_commit_some (cfg : Config) (bm : BM) (c : Comparison) (j : Int)
    (c' : Comparison) :
    lookupBM (commit cfg bm c) j = some c' →
    (c' = c ∧ involvesB cfg c j = true) ∨ lookupBM bm j = some c' := by
  unfold commit
  intro h
  rcases lookupBM_checkForBest_some _ c (pairOf cfg c).2 j c' h with ⟨hc, hj⟩ | h2
  · exact Or.inl ⟨hc, by simp [involvesB, hj]⟩
  · rcases lookupBM_checkForBest_some bm c (pairOf cfg c).1 j c' h2 with ⟨hc, hj⟩ | h3
    · exact Or.inl ⟨hc, by simp [involvesB, hj]⟩
    · exact Or.inr h3

/-- An entry of the registry after a run of commits is a committed comparison
involving its id, or a pre-existing entry. -/
theorem lookupBM_foldl_commit_some (cfg : Config) (L : List Comparison) :
    ∀ (bm : BM) (j : Int) (c' : Comparison),
    lookupBM (L.foldl (commit cfg) bm) j = some c' →
    (c' ∈ L ∧ involvesB cfg c' j = true) ∨ lookupBM bm j = some c' := by
  induction L with
  | nil => intro bm j c' h; exact Or.inr h
  | cons c t ih =>
      intro bm j c' h
      rcases ih (commit cfg bm c) j c' h with ⟨hmem, hinv⟩ | h2
      · exact Or.inl ⟨List.mem_cons_of_mem c hmem, hinv⟩
      · rcases lookupBM_commit_some cfg bm c j c' h2 with ⟨hc, hinv⟩ | h3
        · exact Or.inl ⟨by simp [hc], hc ▸ hinv⟩
        · exact Or.inr h3

/-- The configuration used in the concrete tie-break scenario. -/
def tieCfg : Config := ⟨("id"), fun _ => Algorithm.EQUALITY, fun _ => 0, []⟩

/-- First comparison involving id 7, score 9/10. -/
def tieA : Comparison := ⟨[(("id"), Value.vInt 7)], [(("id"), Value.vInt 1)], [], 0, 0, 9/10⟩

/-- Second comparison involving id 7, also score 9/10, committed later. -/
def tieB : Comparison := ⟨[(("id"), Value.vInt 7)], [(("id"), Value.vInt 2)], [], 0, 0, 9/10⟩

/-- C5 — Best-match tracker invariant and tie-break: starting from the empty
registry, after committing a list of comparisons the stored score for any id
is the maximum (with the absent-entry sentinel 0) over the committed
comparisons involving that id; every stored entry is a committed comparison
involving its id; and of two comparisons involving id 7 that both score 9/10,
the later-committed one is retained (the replacement test uses less-or-equal,
so last write wins). -/
theorem C5_best_match_tracker (cfg : Config) (L : List Comparison) (i : Int) :
    bmScore (L.foldl (commit cfg) []) i =
      ((L.filter (fun c => involvesB cfg c i)).map (fun c => c.score)).foldl max 0
    ∧ (∀ c', lookupBM (L.foldl (commit cfg) []) i = some c' →
        c' ∈ L ∧ involvesB cfg c' i = true)
    ∧ lookupBM ([tieA, tieB].foldl (commit tieCfg) []) 7 = some tieB := by
  refine ⟨?_, ?_, by decide⟩
  · rw [bmScore_foldl_commit, List.foldl_map]
    rfl
  · intro c' h
    rcases lookupBM_foldl_commit_some cfg L [] i c' h with hgood | habs
    · exact hgood
    · simp [lookupBM, List.find?] at habs

/-- Witness for C5: the entry retained for id 7 in the tie scenario is the
later comparison, which was indeed committed and involves id 7. -/
theorem C5_best_match_tracker_witness :
    tieB ∈ [tieA, tieB] ∧ involvesB tieCfg tieB 7 = true :=
  (C5_best_match_tracker tieCfg [tieA, tieB] 7).2.1 tieB
    (C5_best_match_tracker tieCfg [tieA, tieB] 7).2.2

/-- C6 — Email algorithm: the algorithm enum of utils.py contains exactly the
six members EQUALITY, PHONETIC_DISTANCE, URL, COUNTRY, VAT_ID and PHONE — no
Email identifier exists, although field_algorythm.py line 138 tries to
register `compare_email` under `Algorithm.EMAIL` (an AttributeError as soon as
the module is imported).  The `compare_email` function itself behaves as the
claim describes: without an at sign on both sides it falls back to phonetic
distance, differing domains give 0, and matching domains compare the local
parts for equality after stripping a plus-suffix. -/
theorem C6_email_not_in_registry :
    (∀ a : Algorithm, a = Algorithm.EQUALITY ∨ a = Algorithm.PHONETIC_DISTANCE
      ∨ a = Algorithm.URL ∨ a = Algorithm.COUNTRY ∨ a = Algorithm.VAT_ID
      ∨ a = Algorithm.PHONE)
    ∧ compare_email ("ann") ("anne") = phonetic_distance ("ann") ("anne")
    ∧ compare_email ("bob@x.com") ("bob@y.com") = 0
    ∧ compare_email ("bob+spam@x.com") ("bob@x.com") = 1
    ∧ compare_email ("bob@x.com") ("alice@x.com") = 0 := by
  refine ⟨?_, rfl, by decide, by decide, by decide⟩
  intro a
  cases a <;> simp

/-- The number of batches the main loop processes under no limit is the full
schedule length. -/
theorem runBatches_length_none (resolve : String → String) (cfg : Config)
    (fS : String → ℚ) (batches : List (Int × List Int)) :
    ∀ (ed : EDState) (bm : BM),
    (runBatches resolve cfg fS none batches ed bm).1.length = batches.length := by
  induction batches with
  | nil => intro ed bm; rfl
  | cons b rest ih =>
      intro ed bm
      obtain ⟨a, ex⟩ := b
      simp only [runBatches, List.length_cons]
      rw [ih]

/-- The number of batches the main loop processes under limit n: one batch is
always processed first, and the check `limit < 1` happens only after it. -/
theorem runBatches_length_some (resolve : String → String) (cfg : Config)
    (fS : String → ℚ) (batches : List (Int × List Int)) :
    ∀ (n : Int) (ed : EDState) (bm : BM),
    (runBatches resolve cfg fS (some n) batches ed bm).1.length
      = min (max n 1).toNat batches.length := by
  induction batches with
  | nil => intro n ed bm; simp [runBatches]
  | cons b rest ih =>
      intro n ed bm
      obtain ⟨a, ex⟩ := b
      simp only [runBatches]
      by_cases h : n - 1 < 1
      · rw [if_pos h]
        have hmax : (max n 1).toNat = 1 := by omega
        simp only [List.length_singleton, List.length_cons, List.length_nil, hmax]
        omega
      · rw [if_neg h]
        simp only [List.length_cons]
        rw [ih]
        have h2 : (max (n - 1) 1).toNat = n.toNat - 1 := by omega
        have h3 : (max n 1).toNat = n.toNat := by omega
        rw [h2, h3]
        omega

/-- C7 (amended) — Batch limit: with no limit every scheduler batch is
processed; with an integer limit n ≥ 1 exactly the first n batches are
processed (the limit is decremented once per batch and checked only after the
batch completes); with limit 0 one batch is still processed (the check
`limit < 1` runs only after the first batch), so limit 0 behaves like
limit 1. -/
theorem C7_batch_limit (resolve : String → String) (cfg : Config) (fS : String → ℚ)
    (eb : List Comparison) (raw : List Entity) (refresh : List (Int × Int))
    (compared uncompared : List Int) :
    (execute resolve cfg fS eb raw refresh compared uncompared none).batchComparisons.length
        = (generateComparisons refresh compared uncompared).length
    ∧ (∀ n : Int, 1 ≤ n →
        (execute resolve cfg fS eb raw refresh compared uncompared (some n)).batchComparisons.length
          = min n.toNat (generateComparisons refresh compared uncompared).length)
    ∧ (execute resolve cfg fS eb raw refresh compared uncompared (some 0)).batchComparisons.length
        = min 1 (generateComparisons refresh compared uncompared).length := by
  refine ⟨?_, ?_, ?_⟩
  · simp only [execute]
    exact runBatches_length_none resolve cfg _ _ _ _
  · intro n hn
    simp only [execute]
    rw [runBatches_length_some]
    have : max n 1 = n := max_eq_left hn
    rw [this]
  · simp only [execute]
    rw [runBatches_length_some]
    rfl

/-- Configuration for the concrete limit and missing-entity scenarios: id
column only, equality matching, zero thresholds, no negative fields. -/
def c7cfg : Config := ⟨("id"), fun _ => Algorithm.EQUALITY, fun _ => 0, []⟩

/-- Two one-field entities with ids 1 and 2. -/
def c7ents : List Entity := [[(("id"), Value.vInt 1)], [(("id"), Value.vInt 2)]]

/-- Counterexample to C7 as stated: a run whose schedule has exactly one batch
processes that batch even under limit 0 — limit 0 does not process zero
batches. -/
theorem C7_limit_zero_cex :
    (generateComparisons [] [1] [2]).length = 1
    ∧ (execute id c7cfg (fun _ => 0) [] c7ents [] [1] [2] (some 0)).batchComparisons.length = 1 :=
  ⟨rfl, by decide⟩

/-- Witness for C7 at limit 1 on a one-batch schedule. -/
theorem C7_batch_limit_witness :
    (execute id c7cfg (fun _ => 0) [] c7ents [] [1] [2] (some 1)).batchComparisons.length
      = min (Int.toNat 1) (generateComparisons [] [1] [2]).length :=
  (C7_batch_limit id c7cfg (fun _ => 0) [] c7ents [] [1] [2]).2.1 1 (by decide)

/-- Draining an exhausted stream that never produces the key returns the
degenerate stand-in entity. -/
theorem edDrain_missing (cfg : Config) (key : Int) (rem : List (Int × Entity)) :
    ∀ table : List (Int × Entity), (∀ p ∈ rem, p.1 ≠ key) →
    (edDrain cfg table rem key).1 = [(cfg.idColumn, Value.vInt key)] := by
  induction rem with
  | nil => intro table _; rfl
  | cons p rest ih =>
      intro table hrem
      have hp : p.1 ≠ key := hrem p (List.mem_cons_self p rest)
      simp only [edDrain, if_neg hp]
      exact ih (setEntry table p.1 p.2) (fun q hq => hrem q (List.mem_cons_of_mem p hq))

/-- C9 — Missing-entity recovery: when a batch id is neither in the entity
table nor produced by the rest of the entity stream, the EntityDict lookup
returns (without raising) the degenerate stand-in entity holding only the id
field, and every comparison of that stand-in against any entity records
fields only for the id column. -/
theorem C9_missing_entity (cfg : Config) (table : List (Int × Entity))
    (rem : List (Int × Entity)) (key : Int)
    (htab : lookupEntry table key = none) (hrem : ∀ p ∈ rem, p.1 ≠ key) :
    (edLookup cfg (table, rem) key).1 = [(cfg.idColumn, Value.vInt key)]
    ∧ ∀ (resolve : String → String) (fS : String → ℚ) (o : Entity),
        ∀ p ∈ (compareOne resolve cfg fS [(cfg.idColumn, Value.vInt key)] o).fieldScores,
          p.1 = cfg.idColumn := by
  constructor
  · simp only [edLookup, htab]
    exact edDrain_missing cfg key rem table hrem
  · intro resolve fS o p hp
    rw [compareOne_fieldScores] at hp
    rcases List.mem_map.mp hp with ⟨kv, hkv, hpe⟩
    have hkv2 : kv ∈ [(cfg.idColumn, Value.vInt key)] := List.mem_of_mem_filter hkv
    have hk : kv.1 = cfg.idColumn := by
      rcases List.mem_singleton.mp hkv2 with h
      rw [h]
    rw [← hpe]
    exact hk

/-- Witness for C9: looking up id 2 when the stream only ever produces id 1
yields the stand-in entity containing just the id field. -/
theorem C9_missing_entity_witness :
    (edLookup c7cfg ([], [(1, [(("id"), Value.vInt 1)])]) 2).1 = [(("id"), Value.vInt 2)] :=
  (C9_missing_entity c7cfg [] [(1, [(("id"), Value.vInt 1)])] 2 (by decide) (by decide)).1

/-- Configuration for the determinism scenario: id column, equality matching,
zero thresholds, and one inverted (negative) field x. -/
def c2cfg : Config := ⟨("id"), fun _ => Algorithm.EQUALITY, fun _ => 0, [("x")]⟩

/-- Initial class-level weight table: weight 1 on the negative field x. -/
def c2fS : String → ℚ := fun k => if k = ("x") then 1 else 0

/-- Two entities sharing the field x with different values. -/
def c2ents : List Entity :=
  [[(("id"), Value.vInt 1), (("x"), Value.vInt 10)],
   [(("id"), Value.vInt 2), (("x"), Value.vInt 20)]]

/-- First run: no persisted bests, compared [1], uncompared [2], no limit. -/
def c2run1 : RunResult := execute id c2cfg c2fS [] c2ents [] [1] [2] none

/-- Second run on identical inputs: the weight table is the one the first run
left behind, because F_SCORES is class-level shared state that `execute`
mutates in place (entity_algorithm.py lines 363-364). -/
def c2run2 : RunResult := execute id c2cfg c2run1.fScores [] c2ents [] [1] [2] none

/-- C2 — Determinism round-trip fails with a non-empty inverted-field set:
running `execute` twice on identical inputs with no persisted bests produces
different Comparison sets.  The first run negates the weight of x to -1, so
the lazy normalizer (which runs after the negation) drops x and the only
comparison scores 0 over the id field alone; the second run negates the
already-negated weight back to +1, so x survives normalization and the same
pair now scores 1/2 over two fields. -/
theorem C2_determinism_broken :
    c2run1.batchComparisons ≠ c2run2.batchComparisons
    ∧ ((c2run1.batchComparisons.headD []).headD default).score = 0
    ∧ ((c2run2.batchComparisons.headD []).headD default).score = 1/2
    ∧ ((c2run1.batchComparisons.headD []).headD default).count = 1
    ∧ ((c2run2.batchComparisons.headD []).headD default).count = 2 :=
  ⟨by decide, by decide, by decide, by decide, by decide⟩

end DupRec
